import Mathlib

/-! PowerURL core — verification development.

A shallow embedding of the PowerURL short-link service's core subsystems,
translated from the Go sources:

* the redirect-token codec (`internal/http/util/token_util.go`):
  HMAC-SHA256 issuance/validation of short-lived, code-bound tokens,
  including Go's `encoding/base64` RawURL alphabet with its *non-strict*
  decoding (unused trailing padding bits are ignored, CR/LF are skipped);
* the link repository (`internal/app/repository/link_repository.go`):
  cache-aside resolution with a Redis bloom existence filter, a negative
  cache sentinel, and TTLs;
* the click-event pipeline (`click_event_repository.go`,
  `click_consumer.go`, the timeout checker): status updates, the
  reconciliation sweep, and the consumer's fetch/ack loop.

Byte strings are modelled as `List Nat` with values < 256; machine words as
`Nat` reduced `% 2 ^ 32` where the Go code relies on `uint32` wrap-around.
Clocks and randomness are explicit parameters.  Fallible calls return
`Option`/`Except`.
-/

namespace PowerURL

/-! ## Bytes and 32-bit words -/

/-- 32-bit truncation, the `uint32` wrap-around of the Go code. -/
def w32 (n : Nat) : Nat := n % 4294967296

/-- 32-bit right rotation (input assumed < 2^32). -/
def rotr (n x : Nat) : Nat := (x >>> n) ||| (w32 (x <<< (32 - n)))

/-- Modular 32-bit addition. -/
def add32 (a b : Nat) : Nat := w32 (a + b)

/-- Big-endian bytes of a 32-bit value (`binary.BigEndian.PutUint32`). -/
def be32 (n : Nat) : List Nat :=
  [n / 16777216 % 256, n / 65536 % 256, n / 256 % 256, n % 256]

/-- Big-endian bytes of a 16-bit value (`binary.BigEndian.PutUint16`). -/
def be16 (n : Nat) : List Nat := [n / 256 % 256, n % 256]

/-- Big-endian bytes of a 64-bit value (the SHA-256 length field). -/
def be64 (n : Nat) : List Nat :=
  [n / 72057594037927936 % 256, n / 281474976710656 % 256,
   n / 1099511627776 % 256, n / 4294967296 % 256,
   n / 16777216 % 256, n / 65536 % 256, n / 256 % 256, n % 256]

/-- Read a big-endian 32-bit value off the front of a byte list
(`binary.BigEndian.Uint32`; callers guarantee four bytes are present). -/
def readBe32 : List Nat → Nat
  | b0 :: b1 :: b2 :: b3 :: _ => ((b0 * 256 + b1) * 256 + b2) * 256 + b3
  | _ => 0

/-- Read a big-endian 16-bit value off the front of a byte list
(`binary.BigEndian.Uint16`). -/
def readBe16 : List Nat → Nat
  | b0 :: b1 :: _ => b0 * 256 + b1
  | _ => 0

/-! ## SHA-256 (FIPS 180-4), as used through Go's `crypto/sha256` -/

/-- The 64 SHA-256 round constants. -/
def shaK : List Nat :=
  [1116352408, 1899447441, 3049323471, 3921009573, 961987163, 1508970993,
   2453635748, 2870763221, 3624381080, 310598401, 607225278, 1426881987,
   1925078388, 2162078206, 2614888103, 3248222580, 3835390401, 4022224774,
   264347078, 604807628, 770255983, 1249150122, 1555081692, 1996064986,
   2554220882, 2821834349, 2952996808, 3210313671, 3336571891, 3584528711,
   113926993, 338241895, 666307205, 773529912, 1294757372, 1396182291,
   1695183700, 1986661051, 2177026350, 2456956037, 2730485921, 2820302411,
   3259730800, 3345764771, 3516065817, 3600352804, 4094571909, 275423344,
   430227734, 506948616, 659060556, 883997877, 958139571, 1322822218,
   1537002063, 1747873779, 1955562222, 2024104815, 2227730452, 2361852424,
   2428436474, 2756734187, 3204031479, 3329325298]

/-- SHA-256 working state: the eight 32-bit chaining words. -/
structure Sha8 where
  a : Nat
  b : Nat
  c : Nat
  d : Nat
  e : Nat
  f : Nat
  g : Nat
  h : Nat
deriving Repr, DecidableEq

/-- The SHA-256 initial hash value. -/
def shaH0 : Sha8 :=
  ⟨1779033703, 3144134277, 1013904242, 2773480762,
   1359893119, 2600822924, 528734635, 1541459225⟩

/-- Message-schedule sigma-0. -/
def ssig0 (x : Nat) : Nat := (rotr 7 x) ^^^ (rotr 18 x) ^^^ (x >>> 3)

/-- Message-schedule sigma-1. -/
def ssig1 (x : Nat) : Nat := (rotr 17 x) ^^^ (rotr 19 x) ^^^ (x >>> 10)

/-- Big-endian 32-bit words from a byte stream (whole 4-byte groups). -/
def bytesToWords : List Nat → List Nat
  | b0 :: b1 :: b2 :: b3 :: rest =>
      (((b0 * 256 + b1) * 256 + b2) * 256 + b3) :: bytesToWords rest
  | _ => []

/-- One message-schedule extension step: append `W[t]` for `t = length`. -/
def schedStep (w : List Nat) : List Nat :=
  let n := w.length
  w ++ [add32 (add32 (ssig1 (w.getD (n - 2) 0)) (w.getD (n - 7) 0))
              (add32 (ssig0 (w.getD (n - 15) 0)) (w.getD (n - 16) 0))]

/-- Extend the 16 block words to the 64 schedule words. -/
def schedule (w16 : List Nat) : List Nat := schedStep^[48] w16

/-- One SHA-256 compression round with round constant `k` and word `w`. -/
def shaRound (s : Sha8) (k w : Nat) : Sha8 :=
  let s1 := (rotr 6 s.e) ^^^ (rotr 11 s.e) ^^^ (rotr 25 s.e)
  let ch := (s.e &&& s.f) ^^^ ((s.e ^^^ 4294967295) &&& s.g)
  let t1 := add32 (add32 (add32 s.h s1) (add32 ch k)) w
  let s0 := (rotr 2 s.a) ^^^ (rotr 13 s.a) ^^^ (rotr 22 s.a)
  let mj := (s.a &&& s.b) ^^^ (s.a &&& s.c) ^^^ (s.b &&& s.c)
  let t2 := add32 s0 mj
  ⟨add32 t1 t2, s.a, s.b, s.c, add32 s.d t1, s.e, s.f, s.g⟩

/-- Compress one 16-word block into the chaining state. -/
def shaCompress (hcur : Sha8) (block : List Nat) : Sha8 :=
  let ws := schedule block
  let fin := (shaK.zip ws).foldl (fun s kw => shaRound s kw.1 kw.2) hcur
  ⟨add32 hcur.a fin.a, add32 hcur.b fin.b, add32 hcur.c fin.c,
   add32 hcur.d fin.d, add32 hcur.e fin.e, add32 hcur.f fin.f,
   add32 hcur.g fin.g, add32 hcur.h fin.h⟩

/-- Successive 16-word (64-byte) blocks of the padded word stream. -/
def wordBlocks : List Nat → List (List Nat)
  | w0 :: w1 :: w2 :: w3 :: w4 :: w5 :: w6 :: w7 ::
    w8 :: w9 :: w10 :: w11 :: w12 :: w13 :: w14 :: w15 :: rest =>
      [w0, w1, w2, w3, w4, w5, w6, w7,
       w8, w9, w10, w11, w12, w13, w14, w15] :: wordBlocks rest
  | _ => []

/-- SHA-256 padding: `0x80`, zeros, and the 64-bit bit length. -/
def shaPad (msg : List Nat) : List Nat :=
  msg ++ 128 :: List.replicate ((64 - (msg.length + 9) % 64) % 64) 0
      ++ be64 (8 * msg.length)

/-- Big-endian bytes of one 32-bit word. -/
def wordBytes (wrd : Nat) : List Nat := be32 wrd

/-- Serialize the chaining state as the 32 digest bytes. -/
def shaDigestBytes (s : Sha8) : List Nat :=
  wordBytes s.a ++ wordBytes s.b ++ wordBytes s.c ++ wordBytes s.d ++
  wordBytes s.e ++ wordBytes s.f ++ wordBytes s.g ++ wordBytes s.h

/-- SHA-256 of a byte string. -/
def sha256 (msg : List Nat) : List Nat :=
  shaDigestBytes ((wordBlocks (bytesToWords (shaPad msg))).foldl shaCompress shaH0)

/-- HMAC-SHA256 (`crypto/hmac` with `sha256.New`): key preprocessing to one
block, inner and outer hashes. -/
def hmacSha256 (key msg : List Nat) : List Nat :=
  let k0 := if 64 < key.length then sha256 key else key
  let kp := k0 ++ List.replicate (64 - k0.length) 0
  sha256 ((kp.map (fun b => b ^^^ 92)) ++ sha256 ((kp.map (fun b => b ^^^ 54)) ++ msg))

/-! ## Go `encoding/base64` RawURLEncoding

`base64.RawURLEncoding` uses the URL-safe alphabet with no padding
characters.  Its decoder (as in Go) skips CR and LF, rejects any other
non-alphabet byte, rejects a leftover group of one character, and — in the
default non-strict mode the source uses — **ignores** nonzero trailing
padding bits of the final character. -/

/-- The URL-safe alphabet: 6-bit value to ASCII byte. -/
def b64Char (v : Nat) : Nat :=
  if v < 26 then 65 + v
  else if v < 52 then 97 + (v - 26)
  else if v < 62 then 48 + (v - 52)
  else if v = 62 then 45
  else 95

/-- ASCII byte to 6-bit value; `none` on a non-alphabet byte. -/
def b64Value (c : Nat) : Option Nat :=
  if 65 ≤ c ∧ c ≤ 90 then some (c - 65)
  else if 97 ≤ c ∧ c ≤ 122 then some (26 + (c - 97))
  else if 48 ≤ c ∧ c ≤ 57 then some (52 + (c - 48))
  else if c = 45 then some 62
  else if c = 95 then some 63
  else none

/-- Raw (unpadded) base64url encoding of a byte string. -/
def b64Encode : List Nat → List Nat
  | [] => []
  | [b0] => [b64Char (b0 / 4), b64Char (b0 % 4 * 16)]
  | [b0, b1] => [b64Char (b0 / 4), b64Char (b0 % 4 * 16 + b1 / 16),
                 b64Char (b1 % 16 * 4)]
  | b0 :: b1 :: b2 :: rest =>
      b64Char (b0 / 4) :: b64Char (b0 % 4 * 16 + b1 / 16) ::
      b64Char (b1 % 16 * 4 + b2 / 64) :: b64Char (b2 % 64) :: b64Encode rest

/-- Decode whole and trailing character groups (newlines already removed).
Trailing padding bits of the final character are ignored, as in Go's
default non-strict mode. -/
def b64DecodeQuads : List Nat → Option (List Nat)
  | [] => some []
  | [_] => none
  | [c0, c1] =>
      match b64Value c0, b64Value c1 with
      | some v0, some v1 => some [v0 * 4 + v1 / 16]
      | _, _ => none
  | [c0, c1, c2] =>
      match b64Value c0, b64Value c1, b64Value c2 with
      | some v0, some v1, some v2 =>
          some [v0 * 4 + v1 / 16, v1 % 16 * 16 + v2 / 4]
      | _, _, _ => none
  | c0 :: c1 :: c2 :: c3 :: rest =>
      match b64Value c0, b64Value c1, b64Value c2, b64Value c3,
            b64DecodeQuads rest with
      | some v0, some v1, some v2, some v3, some tail =>
          some ((v0 * 4 + v1 / 16) :: (v1 % 16 * 16 + v2 / 4) ::
                (v2 % 4 * 64 + v3) :: tail)
      | _, _, _, _, _ => none

/-- Raw base64url decoding, Go semantics: CR/LF are skipped first. -/
def b64Decode (s : List Nat) : Option (List Nat) :=
  b64DecodeQuads (s.filter (fun c => c ≠ 13 ∧ c ≠ 10))

/-! ## The redirect token codec (`TokenSigner`)

`IssueWithClickID` and `ValidateAndExtractClickID` from
`internal/http/util/token_util.go`.  The process clock and the 8 random
nonce bytes are explicit parameters; `expires` is the `uint32` the Go code
computes as `uint32(time.Now().Add(ttl).Unix())`.  All failure modes
(missing secret, malformed token, signature mismatch, expiry) collapse to
`none`, matching the single generic error the handler reports. -/

/-- Source `TokenSigner.sign`: HMAC-SHA256 over `code || "|" || payload`. -/
def tokenSign (secret code payload : List Nat) : List Nat :=
  hmacSha256 secret (code ++ 124 :: payload)

/-- Source `TokenSigner.IssueWithClickID`.  The base payload is the 4-byte
big-endian expiry followed by the 8 random bytes; a nonempty click ID is
length-prefixed in front of it.  The token is
`base64url(payload) ++ "." ++ base64url(mac[:16])`. -/
def issueWithClickID (secret code clickID : List Nat) (expires : Nat)
    (nonce : List Nat) : Option (List Nat) :=
  if secret = [] then none
  else
    let basePayload := be32 expires ++ nonce
    let payload :=
      if clickID = [] then basePayload
      else be16 clickID.length ++ clickID ++ basePayload
    some (b64Encode payload ++ 46 :: b64Encode ((tokenSign secret code payload).take 16))

/-- Go `strings.SplitN(token, ".", 2)`: split at the first `'.'` (byte 46);
`none` when no separator occurs (Go then returns one part and validation
fails). -/
def splitDot : List Nat → Option (List Nat × List Nat)
  | [] => none
  | c :: rest =>
      if c = 46 then some ([], rest)
      else
        match splitDot rest with
        | some (p, s) => some (c :: p, s)
        | none => none

/-- The logic of `ValidateAndExtractClickID` after both segments have been
base64-decoded: signature length and constant-time MAC check, click-ID
block extraction, expiry check. -/
def validatePayloadSig (secret code payload sig : List Nat) (now : Nat) :
    Option (List Nat) :=
  if secret = [] then none
  else if sig.length ≠ 16 then none
  else if sig ≠ (tokenSign secret code payload).take 16 then none
  else if payload.length < 4 then none
  else
    let cb :=
      if 14 < payload.length then
        let cidLen := readBe16 payload
        if cidLen + 2 + 12 ≤ payload.length then
          ((payload.drop 2).take cidLen, payload.drop (2 + cidLen))
        else ([], payload)
      else ([], payload)
    if readBe32 cb.2 < now then none else some cb.1

/-- Source `TokenSigner.ValidateAndExtractClickID`: split on the separator,
base64-decode both parts, then check signature and expiry and extract the
optional click ID. -/
def validateAndExtractClickID (secret code token : List Nat) (now : Nat) :
    Option (List Nat) :=
  match splitDot token with
  | none => none
  | some (p, s) =>
      match b64Decode p, b64Decode s with
      | some payload, some sig => validatePayloadSig secret code payload sig now
      | _, _ => none

/-- The byte content a token carries: the base64-decoded payload and
signature segments (`none` when the token is structurally malformed). -/
def decodedSegs (token : List Nat) : Option (List Nat × List Nat) :=
  match splitDot token with
  | none => none
  | some (p, s) =>
      match b64Decode p, b64Decode s with
      | some payload, some sig => some (payload, sig)
      | _, _ => none

/-- Flip bit `b` of the byte at position `i` of a byte string. -/
def flipBit (s : List Nat) (i b : Nat) : List Nat :=
  s.set i ((s.getD i 0) ^^^ (1 <<< b))

/-! ## The link repository (`linkRepository`)

`internal/app/repository/link_repository.go`: a GORM-backed store with a
Redis cache and a Redis bloom filter (`BF.RESERVE`/`BF.ADD`/`BF.EXISTS`).

Modelling decisions, all from the source:
* the durable store is a list of `Link` rows; `First`/`Find` take the first
  match, `Create` enforces the `code` primary key, and the store itself is
  assumed reachable (a hard store outage is fatal to the operation and out
  of scope of the cached read-path claims);
* the Redis bloom filter is modelled as the exact set of codes passed to a
  *successful* `BF.ADD` — like the real filter it never reports an added
  code as absent, and `bloomExists` fails open (`BF.EXISTS` error, missing
  client, or unsupported filter all read as "may exist");
* Redis command failures are explicit per-call booleans, because the Go
  code *ignores* the results of `BF.ADD`, `SET` and `DEL`;
* a cache value is `"NULL"` (the negative sentinel), a serialized `Link`
  (`json.Marshal` output, which always succeeds for `Link` and is never the
  string `"NULL"`), or bytes that fail to unmarshal (`corrupt`);
* cache entries carry an absolute expiry deadline (`SET ... TTL`); the
  clock is the state's `now`, in seconds (`cacheTTL` 1h = 3600,
  `cacheNullTTL` 5min = 300). -/

/-- The `model.Link` row. -/
structure Link where
  code : String
  url : String
  mode : String
  timerSeconds : Int
  disabled : Bool
  expiresAt : Option Nat
  createdAt : Nat
  updatedAt : Nat
deriving DecidableEq, Repr

/-- A cache payload: negative sentinel, serialized link, or undecodable. -/
inductive CacheVal
  | nullSentinel
  | ser (l : Link)
  | corrupt
deriving DecidableEq, Repr

/-- A cache entry with its absolute expiry instant. -/
structure CacheEntry where
  val : CacheVal
  deadline : Nat
deriving DecidableEq, Repr

/-- The repository state: store rows, cache, bloom-filter membership set,
the `bloomSupported` flag set at construction, whether a Redis client is
present, and the clock. -/
structure RepoState where
  db : List Link
  cache : List (String × CacheEntry)
  bloom : List String
  bloomSupported : Bool
  hasRedis : Bool
  now : Nat
deriving DecidableEq, Repr

/-- Per-`GetByCode` Redis failure injections. -/
structure GetFlags where
  bloomFails : Bool
  cacheGetFails : Bool
  cacheSetFails : Bool
deriving DecidableEq, Repr

/-- A fully healthy Redis for one call. -/
def noGetFail : GetFlags := ⟨false, false, false⟩

/-- Source `linkRepository.bloomExists`: fail-open existence probe. -/
def bloomExistsM (s : RepoState) (fail : Bool) (code : String) : Bool :=
  if !s.bloomSupported || !s.hasRedis then true
  else if fail then true
  else s.bloom.contains code

/-- The raw cache association for a key, honoring expiry. -/
def cacheLookup (s : RepoState) (code : String) : Option CacheVal :=
  match s.cache.lookup code with
  | some e => if s.now < e.deadline then some e.val else none
  | none => none

/-- A Redis `GET` (`r.redis.Get`): any error — a miss, an expired key, or
an outage — leaves `err != nil` in the Go code and falls through. -/
def cacheRead (s : RepoState) (f : GetFlags) (code : String) : Option CacheVal :=
  if f.cacheGetFails then none else cacheLookup s code

/-- A Redis `SET key val TTL`; the Go code ignores its result, so a failed
write just leaves the cache unchanged. -/
def cacheSet (s : RepoState) (failed : Bool) (code : String) (v : CacheVal)
    (ttl : Nat) : RepoState :=
  if failed then s
  else { s with cache :=
    (code, ⟨v, s.now + ttl⟩) :: s.cache.filter (fun kv => !(kv.1 == code)) }

/-- A Redis `DEL key`. -/
def cacheErase (s : RepoState) (code : String) : RepoState :=
  { s with cache := s.cache.filter (fun kv => !(kv.1 == code)) }

/-- GORM `First(&link, "code = ?")`: the first matching row. -/
def dbFirst (db : List Link) (code : String) : Option Link :=
  db.find? (fun l => l.code == code)

/-- The repository's only read-path error. -/
inductive RepoErr
  | notFound
deriving DecidableEq, Repr

deriving instance DecidableEq for Except

/-- What a `GetByCode` call produced: its result, the successor state, and
how many store reads, cache `GET`s and cache `SET`s it issued. -/
structure GetResult where
  result : Except RepoErr Link
  state : RepoState
  storeReads : Nat
  cacheReads : Nat
  cacheWrites : Nat
deriving DecidableEq, Repr

/-- Source `linkRepository.GetByCode`: bloom short-circuit, cache probe (negative
sentinel, positive entry, or fall-through on miss/corrupt), then the
durable store, writing back a sentinel (short TTL) or the found record
(long TTL). -/
def getByCode (s : RepoState) (f : GetFlags) (code : String) : GetResult :=
  if bloomExistsM s f.bloomFails code = false then
    ⟨.error .notFound, s, 0, 0, 0⟩
  else if s.hasRedis then
    match cacheRead s f code with
    | some .nullSentinel => ⟨.error .notFound, s, 0, 1, 0⟩
    | some (.ser l) => ⟨.ok l, s, 0, 1, 0⟩
    | some .corrupt | none =>
        match dbFirst s.db code with
        | none =>
            ⟨.error .notFound, cacheSet s f.cacheSetFails code .nullSentinel 300,
             1, 1, 1⟩
        | some l =>
            ⟨.ok l, cacheSet s f.cacheSetFails code (.ser l) 3600, 1, 1, 1⟩
  else
    match dbFirst s.db code with
    | none => ⟨.error .notFound, s, 1, 0, 0⟩
    | some l => ⟨.ok l, s, 1, 0, 0⟩

/-- Store-level `Create` failure: the `code` uniqueness violation. -/
inductive CreateErr
  | duplicate
deriving DecidableEq, Repr

/-- Source `linkRepository.Create`: insert (uniqueness on `code`), then `BF.ADD`
with the result ignored — `bloomAddFails` injects a silently dropped
registration. -/
def createOp (s : RepoState) (bloomAddFails : Bool) (link : Link) :
    Except CreateErr RepoState :=
  if s.db.any (fun l => l.code == link.code) then .error .duplicate
  else if s.bloomSupported && s.hasRedis && !bloomAddFails then
    .ok { s with db := s.db ++ [link], bloom := link.code :: s.bloom }
  else .ok { s with db := s.db ++ [link] }

/-- The `Updates` map of `linkRepository.Update`: url, mode, timer_seconds,
disabled, expires_at (plus GORM's automatic updated_at). -/
def updateFields (l upd : Link) (now : Nat) : Link :=
  { l with url := upd.url, mode := upd.mode, timerSeconds := upd.timerSeconds,
           disabled := upd.disabled, expiresAt := upd.expiresAt,
           updatedAt := now }

/-- Source `linkRepository.Update`: conditional update by code (zero affected rows
is NotFound), re-read of the row, then cache `DEL` (result ignored). -/
def updateOp (s : RepoState) (cacheDelFails : Bool) (link : Link) :
    Except RepoErr (Link × RepoState) :=
  if s.db.any (fun l => l.code == link.code) = false then .error .notFound
  else
    match dbFirst (s.db.map (fun l =>
        if l.code == link.code then updateFields l link s.now else l)) link.code with
    | some lr =>
        .ok (lr,
          if s.hasRedis && !cacheDelFails then
            cacheErase { s with db := s.db.map (fun l =>
              if l.code == link.code then updateFields l link s.now else l) }
              link.code
          else { s with db := s.db.map (fun l =>
              if l.code == link.code then updateFields l link s.now else l) })
    | none => .error .notFound

/-- One repository-level operation of a history, with its Redis failure
injections. -/
inductive RepoOp
  | create (link : Link) (bloomAddFails : Bool)
  | get (code : String) (f : GetFlags)
  | update (link : Link) (cacheDelFails : Bool)
  | tick (dt : Nat)

/-- Run one operation for its state effect. -/
def stepOp (s : RepoState) : RepoOp → RepoState
  | .create link bf =>
      match createOp s bf link with
      | .ok s' => s'
      | .error _ => s
  | .get code f => (getByCode s f code).state
  | .update link cf =>
      match updateOp s cf link with
      | .ok (_, s') => s'
      | .error _ => s
  | .tick dt => { s with now := s.now + dt }

/-- Run a history of operations. -/
def runOps (s : RepoState) (ops : List RepoOp) : RepoState := ops.foldl stepOp s

/-- An operation that never loses a bloom registration: any `create` in the
history has a successful `BF.ADD`. -/
def bloomAddOk : RepoOp → Bool
  | .create _ bf => !bf
  | _ => true

/-- Advance the clock between calls. -/
def advance (s : RepoState) (dt : Nat) : RepoState := { s with now := s.now + dt }

/-! ## The click-event pipeline

`click_event_repository.go` (the revision with `UpdateStatus` and
`UpdateExpiredPendingStatus`), `click_consumer.go`, and the
`ClickTimeoutChecker` sweeper.

Modelled from the spec: the `ClickEvent.Status` field and the
`ClickStatusPending` / `ClickStatusSuccess` / `ClickStatusFailed`
constants are referenced throughout the sources (repository, handler,
publisher) but the revision of `model/click_event.go` defining them is not
among the source files; per the spec, `status ∈ PENDING, SUCCESS, FAILED`
with SUCCESS and FAILED terminal.  Everything else below is translated
from the source files. -/

/-- The click-event status (modelled from the spec, see above). -/
inductive ClickStatus
  | pending
  | success
  | failed
deriving DecidableEq, Repr

/-- A persisted `model.ClickEvent` row (`id` is the primary key). -/
structure ClickEventRow where
  id : String
  linkCode : String
  ip : String
  userAgent : String
  status : ClickStatus
  timestamp : Nat
deriving DecidableEq, Repr

/-- Source `clickEventRepository.UpdateStatus`: `UPDATE ... SET status = ? WHERE
id = ?` — unconditional on the current status. -/
def updateStatus (db : List ClickEventRow) (id : String) (st : ClickStatus) :
    List ClickEventRow :=
  db.map (fun r => if r.id == id then { r with status := st } else r)

/-- Source `clickEventRepository.UpdateExpiredPendingStatus`: the sweeper's bulk
conditional update `SET status = failed WHERE status = pending AND
timestamp < ?`, returning the affected-row count. -/
def updateExpiredPendingStatus (db : List ClickEventRow) (expiredBefore : Nat) :
    List ClickEventRow × Nat :=
  ((db.map (fun r =>
      if r.status == ClickStatus.pending && decide (r.timestamp < expiredBefore)
      then { r with status := .failed } else r)),
   (db.filter (fun r =>
      r.status == ClickStatus.pending && decide (r.timestamp < expiredBefore))).length)

/-- Source `clickEventRepository.Create`: a bare GORM `Create`, i.e. a plain SQL
INSERT; the `id` primary key makes a redelivered insert with an existing id
fail with a uniqueness violation. -/
def clickCreate (db : List ClickEventRow) (e : ClickEventRow) :
    Except Unit (List ClickEventRow) :=
  if db.any (fun r => r.id == e.id) then .error () else .ok (db ++ [e])

/-- A fetched JetStream message as the consumer sees it after
`json.Unmarshal`: either undecodable or a click event. -/
inductive Msg
  | malformed
  | wellFormed (e : ClickEventRow)

/-- Explicit acknowledgment outcome per message. -/
inductive MsgAction
  | ack
  | nak
deriving DecidableEq, Repr

/-- The consumer's per-message handling: decode failure NAKs, a failed
store insert NAKs, success ACKs. -/
def processMsg (db : List ClickEventRow) (m : Msg) :
    List ClickEventRow × MsgAction :=
  match m with
  | .malformed => (db, .nak)
  | .wellFormed e =>
      match clickCreate db e with
      | .error _ => (db, .nak)
      | .ok db' => (db', .ack)

/-- Handle one fetched batch in order. -/
def processBatch (db : List ClickEventRow) : List Msg →
    List ClickEventRow × List MsgAction
  | [] => (db, [])
  | m :: rest =>
      ((processBatch (processMsg db m).1 rest).1,
       (processMsg db m).2 :: (processBatch (processMsg db m).1 rest).2)

/-- What one `sub.Fetch(10, MaxWait(5s))` produced: an error (timeout or
other) or a batch of messages. -/
inductive FetchOutcome
  | fetchError (isTimeout : Bool)
  | batch (msgs : List Msg)

/-- Whether a loop iteration goes on to another fetch cycle or exits. -/
inductive LoopDecision
  | continueLoop
  | stopLoop
deriving DecidableEq, Repr

/-- One iteration of `ClickConsumer.consume`. -/
structure ConsumeIter where
  db : List ClickEventRow
  actions : List MsgAction
  decision : LoopDecision

/-- One iteration of the consumer's `for` loop: a non-timeout fetch error
is logged and the loop continues; otherwise the batch is processed and the
loop continues.  No branch of the source loop exits, and the loop body
consults no stop signal. -/
def consumeIter (db : List ClickEventRow) (f : FetchOutcome) : ConsumeIter :=
  match f with
  | .fetchError _ => ⟨db, [], .continueLoop⟩
  | .batch msgs =>
      ⟨(processBatch db msgs).1, (processBatch db msgs).2, .continueLoop⟩

/-- Run the consumer loop over a sequence of fetch outcomes, counting the
fetch cycles actually executed; a `stopLoop` decision would end the run
early. -/
def consumeRun (db : List ClickEventRow) : List FetchOutcome →
    List ClickEventRow × Nat
  | [] => (db, 0)
  | f :: rest =>
      match (consumeIter db f).decision with
      | .continueLoop =>
          ((consumeRun (consumeIter db f).db rest).1,
           (consumeRun (consumeIter db f).db rest).2 + 1)
      | .stopLoop => ((consumeIter db f).db, 1)

/-- What the sweeper's `select` sees on one round: a ticker tick at an
instant, or the closed stop channel. -/
inductive SweepInput
  | tick (now : Nat)
  | stop

/-- Source `ClickTimeoutChecker.run`: on a tick, one conditional bulk update with
cutoff `now - ttl`; on the stop signal, return immediately.  The second
component records whether the loop terminated through the stop signal. -/
def sweeperRun (ttl : Nat) (db : List ClickEventRow) :
    List SweepInput → List ClickEventRow × Bool
  | [] => (db, false)
  | .stop :: _ => (db, true)
  | .tick now :: rest =>
      sweeperRun ttl (updateExpiredPendingStatus db (now - ttl)).1 rest

/-- Whether a tampered token is saved by a MAC coincidence: `true` iff
either its decoded payload is unchanged, or the truncated MAC of its (new)
decoded payload fails to match its decoded signature.  Anything that no
longer decodes at all counts as `true` (it is rejected outright). -/
def macMismatchB (secret code token token' : List Nat) : Bool :=
  match decodedSegs token, decodedSegs token' with
  | some (p, _), some (p', s') =>
      (p' == p) || !((tokenSign secret code p').take 16 == s')
  | _, _ => true

/-- The concrete token issued with secret `"k"`, code `"abc"`, no click ID,
expiry `4000000000`, and nonce `01 02 03 04 05 06 07 03`. -/
def c3Token : List Nat :=
  (issueWithClickID [107] [97, 98, 99] [] 4000000000 [1, 2, 3, 4, 5, 6, 7, 3]).getD []

/-- Bloom-filter soundness invariant: every stored code is visible to a
healthy existence probe. -/
def BloomInv (s : RepoState) : Prop :=
  ∀ l ∈ s.db, bloomExistsM s false l.code = true

/-- Whether the cache currently holds no live, decodable positive entry
for the code (the precondition of the negative-caching property). -/
def noLivePositive (s : RepoState) (code : String) : Bool :=
  match cacheLookup s code with
  | some (.ser _) => false
  | _ => true

/-! ### Base64 lemmas -/

/-- Decoding inverts the alphabet map on 6-bit values. -/
theorem b64Value_b64Char {v : Nat} (h : v < 64) : b64Value (b64Char v) = some v := by
  interval_cases v <;> rfl

/-- Alphabet bytes are never the separator, CR, or LF. -/
theorem b64Char_ne {v : Nat} (h : v < 64) :
    b64Char v ≠ 46 ∧ b64Char v ≠ 13 ∧ b64Char v ≠ 10 := by
  unfold b64Char
  split_ifs <;> omega

/-- Every byte of an encoding is an alphabet byte for some 6-bit value. -/
theorem b64Encode_chars {bs : List Nat} (hb : ∀ b ∈ bs, b < 256) :
    ∀ c ∈ b64Encode bs, ∃ v, v < 64 ∧ c = b64Char v := by
  induction bs using b64Encode.induct with
  | case1 => intro c hc; simp [b64Encode] at hc
  | case2 b0 =>
      intro c hc
      have h0 := hb b0 (by simp)
      simp only [b64Encode, List.mem_cons, List.not_mem_nil, or_false] at hc
      rcases hc with rfl | rfl
      · exact ⟨b0 / 4, by omega, rfl⟩
      · exact ⟨b0 % 4 * 16, by omega, rfl⟩
  | case3 b0 b1 =>
      intro c hc
      have h0 := hb b0 (by simp)
      have h1 := hb b1 (by simp)
      simp only [b64Encode, List.mem_cons, List.not_mem_nil, or_false] at hc
      rcases hc with rfl | rfl | rfl
      · exact ⟨b0 / 4, by omega, rfl⟩
      · exact ⟨b0 % 4 * 16 + b1 / 16, by omega, rfl⟩
      · exact ⟨b1 % 16 * 4, by omega, rfl⟩
  | case4 b0 b1 b2 rest ih =>
      intro c hc
      have h0 := hb b0 (by simp)
      have h1 := hb b1 (by simp)
      have h2 := hb b2 (by simp)
      simp only [b64Encode, List.mem_cons] at hc
      rcases hc with rfl | rfl | rfl | rfl | hc
      · exact ⟨b0 / 4, by omega, rfl⟩
      · exact ⟨b0 % 4 * 16 + b1 / 16, by omega, rfl⟩
      · exact ⟨b1 % 16 * 4 + b2 / 64, by omega, rfl⟩
      · exact ⟨b2 % 64, by omega, rfl⟩
      · exact ih (fun b hbm => hb b (by simp [hbm])) c hc

/-- No separator byte occurs in an encoding of genuine bytes. -/
theorem b64Encode_no_sep {bs : List Nat} (hb : ∀ b ∈ bs, b < 256) :
    46 ∉ b64Encode bs := by
  intro hmem
  obtain ⟨v, hv, hveq⟩ := b64Encode_chars hb 46 hmem
  exact (b64Char_ne hv).1 hveq.symm

/-- Splitting at an explicitly appended separator. -/
theorem splitDot_append {p s : List Nat} (hp : 46 ∉ p) :
    splitDot (p ++ 46 :: s) = some (p, s) := by
  induction p with
  | nil => simp [splitDot]
  | cons c cs ih =>
      have hc : c ≠ 46 := fun h => hp (by simp [h])
      have hcs : 46 ∉ cs := fun h => hp (by simp [h])
      simp only [List.cons_append, splitDot, if_neg hc, List.append_eq, ih hcs]

/-- Group decoding inverts encoding on genuine bytes. -/
theorem b64DecodeQuads_encode {bs : List Nat} (hb : ∀ b ∈ bs, b < 256) :
    b64DecodeQuads (b64Encode bs) = some bs := by
  induction bs using b64Encode.induct with
  | case1 => rfl
  | case2 b0 =>
      have h0 := hb b0 (by simp)
      simp only [b64Encode, b64DecodeQuads,
        b64Value_b64Char (show b0 / 4 < 64 by omega),
        b64Value_b64Char (show b0 % 4 * 16 < 64 by omega),
        Option.some.injEq, List.cons.injEq, and_true]
      omega
  | case3 b0 b1 =>
      have h0 := hb b0 (by simp)
      have h1 := hb b1 (by simp)
      simp only [b64Encode, b64DecodeQuads,
        b64Value_b64Char (show b0 / 4 < 64 by omega),
        b64Value_b64Char (show b0 % 4 * 16 + b1 / 16 < 64 by omega),
        b64Value_b64Char (show b1 % 16 * 4 < 64 by omega),
        Option.some.injEq, List.cons.injEq, and_true]
      omega
  | case4 b0 b1 b2 rest ih =>
      have h0 := hb b0 (by simp)
      have h1 := hb b1 (by simp)
      have h2 := hb b2 (by simp)
      have hrest := ih (fun b hbm => hb b (by simp [hbm]))
      simp only [b64Encode, b64DecodeQuads,
        b64Value_b64Char (show b0 / 4 < 64 by omega),
        b64Value_b64Char (show b0 % 4 * 16 + b1 / 16 < 64 by omega),
        b64Value_b64Char (show b1 % 16 * 4 + b2 / 64 < 64 by omega),
        b64Value_b64Char (show b2 % 64 < 64 by omega),
        hrest, Option.some.injEq, List.cons.injEq, and_true]
      refine ⟨by omega, by omega, by omega⟩

/-- Full decoding (with CR/LF skipping) inverts encoding on genuine bytes. -/
theorem b64Decode_encode {bs : List Nat} (hb : ∀ b ∈ bs, b < 256) :
    b64Decode (b64Encode bs) = some bs := by
  unfold b64Decode
  have hfilter : (b64Encode bs).filter (fun c => c ≠ 13 ∧ c ≠ 10) = b64Encode bs := by
    rw [List.filter_eq_self]
    intro c hc
    obtain ⟨v, hv, rfl⟩ := b64Encode_chars hb c hc
    have := b64Char_ne hv
    simp only [decide_eq_true_eq]
    exact ⟨this.2.1, this.2.2⟩
  rw [hfilter, b64DecodeQuads_encode hb]

/-! ### Digest shape lemmas -/

/-- Big-endian 32-bit serialization produces bytes. -/
theorem be32_mem {n b : Nat} (h : b ∈ be32 n) : b < 256 := by
  simp only [be32, List.mem_cons, List.not_mem_nil, or_false] at h
  rcases h with rfl | rfl | rfl | rfl <;> omega

/-- A serialized digest state has 32 bytes. -/
theorem shaDigestBytes_length (s : Sha8) : (shaDigestBytes s).length = 32 := rfl

/-- SHA-256 digests have 32 bytes. -/
theorem sha256_length (msg : List Nat) : (sha256 msg).length = 32 :=
  shaDigestBytes_length _

/-- Digest entries are bytes. -/
theorem shaDigestBytes_mem {s : Sha8} {b : Nat} (h : b ∈ shaDigestBytes s) :
    b < 256 := by
  simp only [shaDigestBytes, wordBytes, List.mem_append] at h
  rcases h with ((((((h | h) | h) | h) | h) | h) | h) | h <;> exact be32_mem h

/-- SHA-256 digest entries are bytes. -/
theorem sha256_mem {msg : List Nat} {b : Nat} (h : b ∈ sha256 msg) : b < 256 :=
  shaDigestBytes_mem h

/-- HMAC-SHA256 tags have 32 bytes. -/
theorem hmacSha256_length (key msg : List Nat) : (hmacSha256 key msg).length = 32 :=
  sha256_length _

/-- HMAC-SHA256 tag entries are bytes. -/
theorem hmacSha256_mem {key msg : List Nat} {b : Nat} (h : b ∈ hmacSha256 key msg) :
    b < 256 :=
  sha256_mem h

/-! ### Token codec lemmas -/

/-- Validation factors through the decoded segment pair: the result depends
on the token text only through `decodedSegs`. -/
theorem validate_eq_decodedSegs (secret code token : List Nat) (now : Nat) :
    validateAndExtractClickID secret code token now =
      (decodedSegs token).bind
        (fun ps => validatePayloadSig secret code ps.1 ps.2 now) := by
  unfold validateAndExtractClickID decodedSegs
  rcases h : splitDot token with _ | ⟨p, s⟩ <;> simp only [h]
  · rfl
  · rcases hp : b64Decode p with _ | pl <;> rcases hs : b64Decode s with _ | sg <;>
      simp only [hp, hs] <;> rfl

/-- Inversion: a validation success pins the signature segment down as the
truncated MAC of the payload segment. -/
theorem validatePayloadSig_sig_eq {secret code p s : List Nat} {now : Nat}
    {cid : List Nat} (h : validatePayloadSig secret code p s now = some cid) :
    s = (tokenSign secret code p).take 16 := by
  unfold validatePayloadSig at h
  split_ifs at h with h1 h2 h3 h4 h5
  · exact not_not.mp h3
  · exact not_not.mp h3

/-- A successful validation requires a nonempty secret. -/
theorem validatePayloadSig_secret_ne {secret code p s : List Nat} {now : Nat}
    {cid : List Nat} (h : validatePayloadSig secret code p s now = some cid) :
    secret ≠ [] := by
  unfold validatePayloadSig at h
  split_ifs at h with h1 <;> simp_all

/-- C4.  Token round-trip: with a nonempty secret, any code, any expiry
and nonce, validating the freshly issued token for click ID `"abc"`
(bytes `[97, 98, 99]`) at any time not later than the embedded expiry
succeeds and returns exactly that click ID. -/
theorem token_roundtrip (secret code nonce : List Nat) (expires now : Nat)
    (hsec : secret ≠ []) (hexp : expires < 4294967296) (hnow : now ≤ expires)
    (hnlen : nonce.length = 8) (hnb : ∀ b ∈ nonce, b < 256) :
    (issueWithClickID secret code [97, 98, 99] expires nonce).bind
        (fun t => validateAndExtractClickID secret code t now) =
      some [97, 98, 99] := by
  have hpay : (be16 ([97, 98, 99] : List Nat).length ++ [97, 98, 99] ++
      (be32 expires ++ nonce) : List Nat) =
      0 :: 3 :: 97 :: 98 :: 99 :: (be32 expires ++ nonce) := rfl
  have hpb : ∀ b ∈ (0 :: 3 :: 97 :: 98 :: 99 :: (be32 expires ++ nonce) : List Nat),
      b < 256 := by
    intro b hbm
    simp only [List.mem_cons, List.mem_append] at hbm
    rcases hbm with rfl | rfl | rfl | rfl | rfl | hbm | hbm
    · omega
    · omega
    · omega
    · omega
    · omega
    · exact be32_mem hbm
    · exact hnb b hbm
  have hsb : ∀ b ∈ (tokenSign secret code
      (0 :: 3 :: 97 :: 98 :: 99 :: (be32 expires ++ nonce))).take 16, b < 256 :=
    fun b hbm => hmacSha256_mem (List.take_subset _ _ hbm)
  have hds : decodedSegs
      (b64Encode (0 :: 3 :: 97 :: 98 :: 99 :: (be32 expires ++ nonce)) ++
        46 :: b64Encode ((tokenSign secret code
          (0 :: 3 :: 97 :: 98 :: 99 :: (be32 expires ++ nonce))).take 16)) =
      some (0 :: 3 :: 97 :: 98 :: 99 :: (be32 expires ++ nonce),
        (tokenSign secret code
          (0 :: 3 :: 97 :: 98 :: 99 :: (be32 expires ++ nonce))).take 16) := by
    unfold decodedSegs
    rw [splitDot_append (b64Encode_no_sep hpb)]
    simp only [b64Decode_encode hpb, b64Decode_encode hsb]
  have hlen : (0 :: 3 :: 97 :: 98 :: 99 :: (be32 expires ++ nonce) : List Nat).length
      = 17 := by
    simp [be32, hnlen]
  have hlen16 : (((tokenSign secret code
      (0 :: 3 :: 97 :: 98 :: 99 :: (be32 expires ++ nonce))).take 16) :
      List Nat).length = 16 := by
    rw [List.length_take]
    unfold tokenSign
    rw [hmacSha256_length]
    omega
  have hrd32 : readBe32 ((0 :: 3 :: 97 :: 98 :: 99 ::
      (be32 expires ++ nonce) : List Nat).drop (2 + 3)) = expires := by
    show readBe32 (be32 expires ++ nonce) = expires
    simp only [be32, List.cons_append, readBe32]
    omega
  have hissue : issueWithClickID secret code [97, 98, 99] expires nonce =
      some (b64Encode (0 :: 3 :: 97 :: 98 :: 99 :: (be32 expires ++ nonce)) ++
        46 :: b64Encode ((tokenSign secret code
          (0 :: 3 :: 97 :: 98 :: 99 :: (be32 expires ++ nonce))).take 16)) := by
    unfold issueWithClickID
    rw [if_neg hsec]
    exact rfl
  rw [hissue, Option.some_bind, validate_eq_decodedSegs, hds, Option.some_bind]
  show validatePayloadSig secret code
      (0 :: 3 :: 97 :: 98 :: 99 :: (be32 expires ++ nonce))
      ((tokenSign secret code
        (0 :: 3 :: 97 :: 98 :: 99 :: (be32 expires ++ nonce))).take 16) now =
    some [97, 98, 99]
  unfold validatePayloadSig
  rw [if_neg hsec]
  rw [if_neg (show ¬_ ≠ 16 by rw [hlen16]; exact fun h => h rfl)]
  rw [if_neg (show ¬_ ≠ _ from fun h => h rfl)]
  rw [if_neg (show ¬_ < 4 by rw [hlen]; omega)]
  rw [if_pos (show 14 < _ by rw [hlen]; omega)]
  rw [show readBe16 (0 :: 3 :: 97 :: 98 :: 99 :: (be32 expires ++ nonce)) = 3
    from rfl]
  rw [if_pos (show 3 + 2 + 12 ≤ _ by rw [hlen])]
  show (if readBe32 ((0 :: 3 :: 97 :: 98 :: 99 ::
        (be32 expires ++ nonce) : List Nat).drop (2 + 3)) < now then none
      else some (((0 :: 3 :: 97 :: 98 :: 99 ::
        (be32 expires ++ nonce) : List Nat).drop 2).take 3)) = some [97, 98, 99]
  rw [hrd32, if_neg (show ¬expires < now by omega)]
  rfl

/-- C4 witness: the round-trip theorem applied at a concrete secret, code,
expiry, clock and nonce. -/
theorem token_roundtrip_witness :
    (issueWithClickID [107] [99, 100] [97, 98, 99] 1000 [0, 0, 0, 0, 0, 0, 0, 0]).bind
        (fun t => validateAndExtractClickID [107] [99, 100] t 1000) =
      some [97, 98, 99] :=
  token_roundtrip [107] [99, 100] [0, 0, 0, 0, 0, 0, 0, 0] 1000 1000
    (by decide) (by decide) (by decide) (by decide) (by decide)

/-- C3 (amended).  Tamper evidence up to decode-equivalence: fix a token
that validates.  Any token text whose two segments still decode to the same
byte strings validates identically — Go's non-strict base64 decoder ignores
trailing padding bits, so some single-bit flips land here.  Any token text
whose decoded content differs (or no longer decodes) is rejected, provided
the truncated MAC of its decoded payload does not coincidentally match its
decoded signature (`macMismatchB`); without that proviso the claim would
assert collision-freeness of truncated HMAC-SHA256. -/
theorem tamper_evidence (secret code token tok cid : List Nat) (now : Nat)
    (hvalid : validateAndExtractClickID secret code token now = some cid)
    (hmacOk : macMismatchB secret code token tok = true) :
    (decodedSegs tok = decodedSegs token →
        validateAndExtractClickID secret code tok now = some cid)
    ∧ (decodedSegs tok ≠ decodedSegs token →
        validateAndExtractClickID secret code tok now = none) := by
  constructor
  · intro he
    rw [validate_eq_decodedSegs, he, ← validate_eq_decodedSegs]
    exact hvalid
  · intro hne
    rw [validate_eq_decodedSegs] at hvalid ⊢
    rcases hq : decodedSegs token with _ | ⟨p, s⟩
    · rw [hq] at hvalid
      simp at hvalid
    rcases hq' : decodedSegs tok with _ | ⟨p', s'⟩
    · simp
    rw [hq] at hvalid
    simp only [Option.some_bind] at hvalid ⊢
    have hsig : s = (tokenSign secret code p).take 16 :=
      validatePayloadSig_sig_eq hvalid
    unfold macMismatchB at hmacOk
    rw [hq, hq'] at hmacOk
    rw [hq, hq'] at hne
    by_cases hp : p' = p
    · subst hp
      have hs : s' ≠ s := fun h => hne (by rw [h])
      have hs16 : s' ≠ (tokenSign secret code p').take 16 := fun h =>
        hs (h.trans hsig.symm)
      unfold validatePayloadSig
      split_ifs with h1 h2 <;> rfl
    · have hmac : (tokenSign secret code p').take 16 ≠ s' := by
        simp only [Bool.or_eq_true, beq_iff_eq, Bool.not_eq_eq_eq_not,
          Bool.not_true, beq_eq_false_iff_ne, ne_eq] at hmacOk
        rcases hmacOk with h | h
        · exact absurd h hp
        · exact h
      unfold validatePayloadSig
      split_ifs with h1 h2 h3 h4 h5 <;>
        first
          | rfl
          | exact absurd (not_not.mp h3).symm hmac

set_option maxRecDepth 1000000 in
/-- C3 counterexample: flipping bit 1 of byte 38 of the concrete issued
token — the final character of the signature segment, `'A'` becoming
`'C'` — produces a *different* token text that still validates, because the
flipped bit is one of the four trailing base64 padding bits the non-strict
decoder ignores.  The claim that every single-bit flip of a token segment
makes validation fail is therefore false.

Proof is by kernel evaluation of the embedded HMAC-SHA256. -/
theorem tamper_flip_accepted :
    some c3Token =
      issueWithClickID [107] [97, 98, 99] [] 4000000000 [1, 2, 3, 4, 5, 6, 7, 3]
    ∧ flipBit c3Token 38 1 ≠ c3Token
    ∧ c3Token.getD 16 0 = 46
    ∧ validateAndExtractClickID [107] [97, 98, 99] (flipBit c3Token 38 1) 0 =
        some [] := by
  decide

set_option maxRecDepth 1000000 in
/-- C3 witness for the amended theorem: flipping bit 0 of byte 0 of the
same concrete token changes the decoded payload (`'7'` becomes `'6'`), the
MAC-coincidence proviso holds by computation, and validation of the flipped
token indeed fails. -/
theorem tamper_evidence_witness :
    validateAndExtractClickID [107] [97, 98, 99] (flipBit c3Token 0 0) 0 = none :=
  (tamper_evidence [107] [97, 98, 99] c3Token (flipBit c3Token 0 0) [] 0
    (by decide) (by decide)).2 (by decide)

/-! ### Link repository lemmas -/

/-- A cache write never touches store, bloom, capability flags or clock. -/
theorem cacheSet_fields (s : RepoState) (b : Bool) (code : String)
    (v : CacheVal) (ttl : Nat) :
    (cacheSet s b code v ttl).db = s.db ∧
    (cacheSet s b code v ttl).bloom = s.bloom ∧
    (cacheSet s b code v ttl).bloomSupported = s.bloomSupported ∧
    (cacheSet s b code v ttl).hasRedis = s.hasRedis ∧
    (cacheSet s b code v ttl).now = s.now := by
  unfold cacheSet
  split <;> exact ⟨rfl, rfl, rfl, rfl, rfl⟩

/-- The existence probe depends only on the bloom set and the capability
flags. -/
theorem bloomExistsM_congr {s t : RepoState} (hb : t.bloom = s.bloom)
    (hsup : t.bloomSupported = s.bloomSupported) (hr : t.hasRedis = s.hasRedis)
    (fail : Bool) (code : String) :
    bloomExistsM t fail code = bloomExistsM s fail code := by
  unfold bloomExistsM
  rw [hb, hsup, hr]

/-- A `GetByCode` only ever touches the cache component of the state. -/
theorem getByCode_fields (s : RepoState) (f : GetFlags) (code : String) :
    (getByCode s f code).state.db = s.db ∧
    (getByCode s f code).state.bloom = s.bloom ∧
    (getByCode s f code).state.bloomSupported = s.bloomSupported ∧
    (getByCode s f code).state.hasRedis = s.hasRedis ∧
    (getByCode s f code).state.now = s.now := by
  unfold getByCode
  repeat' split
  all_goals
    first
      | exact ⟨rfl, rfl, rfl, rfl, rfl⟩
      | exact cacheSet_fields s f.cacheSetFails code .nullSentinel 300
      | exact cacheSet_fields s f.cacheSetFails code (.ser _) 3600

/-- A successful create with a successful `BF.ADD` (or with the filter
unsupported or Redis absent, in which case the probe always answers "may
exist") preserves the invariant. -/
theorem createOp_bloomInv {s : RepoState} {link : Link} {s' : RepoState}
    (hs : BloomInv s) (h : createOp s false link = .ok s') : BloomInv s' := by
  unfold createOp at h
  split at h
  · exact absurd h (by simp)
  · split at h
    case isTrue hcond =>
      injection h with h2
      subst h2
      intro l hl
      simp only [Bool.not_false, Bool.and_true, Bool.and_eq_true] at hcond
      rcases List.mem_append.mp hl with hl | hl
      · have hold := hs l hl
        unfold bloomExistsM at hold ⊢
        simp only [hcond.1, hcond.2] at hold ⊢
        simp only [Bool.not_true, Bool.or_self, Bool.false_eq_true, if_false] at hold ⊢
        simp only [List.contains_cons, hold, Bool.or_true]
      · simp only [List.mem_singleton] at hl
        subst hl
        unfold bloomExistsM
        simp [hcond.1, hcond.2, List.contains_cons]
    case isFalse hcond =>
      injection h with h2
      subst h2
      intro l hl
      unfold bloomExistsM
      rcases hsup : s.bloomSupported with _ | _
      · simp [hsup]
      · rcases hred : s.hasRedis with _ | _
        · simp [hred]
        · simp [hsup, hred] at hcond

/-- An update never changes the set of stored codes, the bloom set, or the
capability flags, so it preserves the invariant. -/
theorem updateOp_bloomInv {s : RepoState} {link lr : Link} {s' : RepoState}
    {cf : Bool} (hs : BloomInv s) (h : updateOp s cf link = .ok (lr, s')) :
    BloomInv s' := by
  unfold updateOp at h
  split at h
  · exact absurd h (by simp)
  · split at h
    case h_1 lr0 heq =>
      injection h with h2
      rw [Prod.mk.injEq] at h2
      obtain ⟨rfl, rfl⟩ := h2
      intro l hl
      revert hl
      split
      · intro hl
        simp only [cacheErase, List.mem_map] at hl
        obtain ⟨l0, hl0, rfl⟩ := hl
        unfold bloomExistsM
        have hold := hs l0 hl0
        unfold bloomExistsM at hold
        simpa [cacheErase, apply_ite Link.code, updateFields] using hold
      · intro hl
        simp only [List.mem_map] at hl
        obtain ⟨l0, hl0, rfl⟩ := hl
        unfold bloomExistsM
        have hold := hs l0 hl0
        unfold bloomExistsM at hold
        simpa [apply_ite Link.code, updateFields] using hold
    case h_2 => exact absurd h (by simp)

/-- Every history step preserves the bloom-soundness invariant, provided
any `BF.ADD` it performs succeeds. -/
theorem stepOp_bloomInv {s : RepoState} {op : RepoOp} (hs : BloomInv s)
    (hop : bloomAddOk op = true) : BloomInv (stepOp s op) := by
  cases op with
  | create link bf =>
      have hbf : bf = false := by simpa [bloomAddOk] using hop
      subst hbf
      simp only [stepOp]
      rcases h : createOp s false link with e | s'
      · exact hs
      · exact createOp_bloomInv hs h
  | get code f =>
      intro l hl
      have hf := getByCode_fields s f code
      simp only [stepOp] at hl ⊢
      rw [bloomExistsM_congr hf.2.1 hf.2.2.1 hf.2.2.2.1]
      exact hs l (hf.1 ▸ hl)
  | update link cf =>
      simp only [stepOp]
      rcases h : updateOp s cf link with e | ⟨lr, s'⟩
      · exact hs
      · exact updateOp_bloomInv hs h
  | tick dt =>
      intro l hl
      simp only [stepOp] at hl
      exact hs l hl

/-- The invariant holds along any failure-free history. -/
theorem runOps_bloomInv (s0 : RepoState) (ops : List RepoOp)
    (hinit : BloomInv s0) (hops : ∀ op ∈ ops, bloomAddOk op = true) :
    BloomInv (runOps s0 ops) := by
  induction ops generalizing s0 with
  | nil => exact hinit
  | cons op rest ih =>
      exact ih (stepOp s0 op)
        (stepOp_bloomInv hinit (hops op (List.mem_cons_self op rest)))
        (fun o ho => hops o (List.mem_cons_of_mem op ho))

/-- C5 (amended).  The Existence Filter has no false negatives *as long as
every filter registration (`BF.ADD`) succeeds*: starting from any state
satisfying the bloom-soundness invariant (e.g. the empty initial state),
after any history of creates, reads, updates and clock ticks in which no
`BF.ADD` result is lost, a code the filter reports definitely absent has no
stored `Link` — hence no `Create` for it ever completed successfully.
(`Create` ignores the `BF.ADD` result, so a failed registration after a
successful insert breaks this; see the counterexample.) -/
theorem bloom_no_false_negatives (s0 : RepoState) (ops : List RepoOp)
    (code : String)
    (hinit : ∀ l ∈ s0.db, bloomExistsM s0 false l.code = true)
    (hops : ∀ op ∈ ops, bloomAddOk op = true)
    (habs : bloomExistsM (runOps s0 ops) false code = false) :
    ∀ l ∈ (runOps s0 ops).db, l.code ≠ code := by
  intro l hl heq
  have htrue := runOps_bloomInv s0 ops hinit hops l hl
  rw [heq, habs] at htrue
  cases htrue

/-- C5 witness: from the empty, bloom-capable initial state, after one
successful create (with `BF.ADD` succeeding), the filter's definite
absence of a different code certifies it was never created. -/
theorem bloom_no_false_negatives_witness :
    (⟨"a", "u", "direct", 0, false, none, 0, 0⟩ : Link).code ≠ "b" :=
  bloom_no_false_negatives ⟨[], [], [], true, true, 0⟩
    [.create ⟨"a", "u", "direct", 0, false, none, 0, 0⟩ false] "b"
    (by decide) (by decide) (by decide)
    ⟨"a", "u", "direct", 0, false, none, 0, 0⟩ (by decide)

/-- C5 counterexample: `Create` discards the `BF.ADD` result.  From the
empty bloom-capable state, a create whose `BF.ADD` fails still *returns
success* and stores the row, yet the filter then reports the code
definitely absent — a false negative, so the unconditional claim is false
(the spec flags exactly this hole in §9). -/
theorem bloom_false_negative_on_add_failure :
    createOp ⟨[], [], [], true, true, 0⟩ true
        ⟨"a", "u", "direct", 0, false, none, 0, 0⟩ =
      .ok ⟨[⟨"a", "u", "direct", 0, false, none, 0, 0⟩], [], [], true, true, 0⟩
    ∧ bloomExistsM
        ⟨[⟨"a", "u", "direct", 0, false, none, 0, 0⟩], [], [], true, true, 0⟩
        false "a" = false := by
  decide

/-- C7.  Filter short-circuit: whenever the existence probe reports
definite absence, `GetByCode` answers NotFound with the state untouched and
zero store reads, zero cache reads, and zero cache writes. -/
theorem filter_short_circuit (s : RepoState) (f : GetFlags) (code : String)
    (h : bloomExistsM s f.bloomFails code = false) :
    getByCode s f code = ⟨.error .notFound, s, 0, 0, 0⟩ := by
  unfold getByCode
  rw [if_pos h]

/-- C7 witness: a healthy filter over an empty bloom set reports absence,
and the lookup short-circuits. -/
theorem filter_short_circuit_witness :
    getByCode ⟨[], [], [], true, true, 0⟩ noGetFail "x" =
      ⟨.error .notFound, ⟨[], [], [], true, true, 0⟩, 0, 0, 0⟩ :=
  filter_short_circuit ⟨[], [], [], true, true, 0⟩ noGetFail "x" (by decide)

/-- Running `GetByCode` on a live negative sentinel: NotFound from the cache. -/
theorem getByCode_null (s : RepoState) (f : GetFlags) (code : String)
    (hb : bloomExistsM s f.bloomFails code = true) (hr : s.hasRedis = true)
    (hc : cacheRead s f code = some .nullSentinel) :
    getByCode s f code = ⟨.error .notFound, s, 0, 1, 0⟩ := by
  unfold getByCode
  rw [if_neg (by simp [hb]), if_pos hr, hc]

/-- Running `GetByCode` on a live positive entry: the cached record. -/
theorem getByCode_ser (s : RepoState) (f : GetFlags) (code : String)
    (l : Link)
    (hb : bloomExistsM s f.bloomFails code = true) (hr : s.hasRedis = true)
    (hc : cacheRead s f code = some (.ser l)) :
    getByCode s f code = ⟨.ok l, s, 0, 1, 0⟩ := by
  unfold getByCode
  rw [if_neg (by simp [hb]), if_pos hr, hc]

/-- Running `GetByCode` on a miss or an undecodable entry falls through to the
store and repopulates the cache from its answer. -/
theorem getByCode_miss (s : RepoState) (f : GetFlags) (code : String)
    (hb : bloomExistsM s f.bloomFails code = true) (hr : s.hasRedis = true)
    (hc : cacheRead s f code = some .corrupt ∨ cacheRead s f code = none) :
    getByCode s f code =
      match dbFirst s.db code with
      | none => ⟨.error .notFound,
          cacheSet s f.cacheSetFails code .nullSentinel 300, 1, 1, 1⟩
      | some l => ⟨.ok l,
          cacheSet s f.cacheSetFails code (.ser l) 3600, 1, 1, 1⟩ := by
  unfold getByCode
  rcases hc with hc | hc <;> rw [if_neg (by simp [hb]), if_pos hr, hc]

/-- Erasing a key from an association list makes its lookup fail. -/
theorem lookup_filter_self (cache : List (String × CacheEntry)) (code : String) :
    (cache.filter (fun kv => !(kv.1 == code))).lookup code = none := by
  induction cache with
  | nil => rfl
  | cons kv rest ih =>
      rcases kv with ⟨k, v⟩
      by_cases h : k = code
      · subst h
        simpa [List.filter_cons] using ih
      · have hk : (k == code) = false := beq_eq_false_iff_ne.mpr h
        have hck : (code == k) = false := beq_eq_false_iff_ne.mpr (Ne.symm h)
        simp [List.filter_cons, hk, List.lookup, hck, ih]

/-- Looking up the key just written at the head of the cache. -/
theorem lookup_cons_self (k : String) (v : CacheEntry)
    (rest : List (String × CacheEntry)) :
    ((k, v) :: rest).lookup k = some v := by
  simp [List.lookup]

/-- The entry just written by a cache `SET` is what a lookup within its
TTL returns. -/
theorem cacheRead_after_set_live (s : RepoState) (code : String) (v : CacheVal)
    (ttl dt : Nat) (h : dt < ttl) :
    cacheRead (advance (cacheSet s noGetFail.cacheSetFails code v ttl) dt)
      noGetFail code = some v := by
  have hred : cacheRead (advance (cacheSet s noGetFail.cacheSetFails code v ttl) dt)
      noGetFail code =
      match ((code, (⟨v, s.now + ttl⟩ : CacheEntry)) ::
          s.cache.filter (fun kv => !(kv.1 == code))).lookup code with
      | some e => if s.now + dt < e.deadline then some e.val else none
      | none => none := rfl
  rw [hred, lookup_cons_self]
  show (if s.now + dt < s.now + ttl then some v else none) = some v
  rw [if_pos (by omega)]

/-- The raw cache association just after a `SET`. -/
theorem cacheSet_lookup_self (s : RepoState) (code : String) (v : CacheVal)
    (ttl : Nat) :
    (cacheSet s noGetFail.cacheSetFails code v ttl).cache.lookup code =
      some ⟨v, s.now + ttl⟩ := by
  have hred : (cacheSet s noGetFail.cacheSetFails code v ttl).cache =
      (code, (⟨v, s.now + ttl⟩ : CacheEntry)) ::
        s.cache.filter (fun kv => !(kv.1 == code)) := rfl
  rw [hred, lookup_cons_self]

/-- C8.  Negative caching: with Redis up, the filter passing, the store
lacking the code, and no live positive cache entry for it, two consecutive
`GetByCode` calls separated by less than the negative TTL both return
NotFound, issue at most one store read between them, and — whenever the
first call did read the store — the first call leaves the negative
sentinel with deadline `now + 300` (the 5-minute TTL) in the cache. -/
theorem negative_caching (s : RepoState) (code : String) (dt : Nat)
    (hr : s.hasRedis = true)
    (hdb : dbFirst s.db code = none)
    (hser : noLivePositive s code = true)
    (hb : bloomExistsM s false code = true)
    (hdt : dt < 300) :
    (getByCode s noGetFail code).result = .error .notFound ∧
    (getByCode (advance (getByCode s noGetFail code).state dt) noGetFail
        code).result = .error .notFound ∧
    (getByCode s noGetFail code).storeReads +
      (getByCode (advance (getByCode s noGetFail code).state dt) noGetFail
        code).storeReads ≤ 1 ∧
    ((getByCode s noGetFail code).storeReads = 1 →
      (getByCode s noGetFail code).state.cache.lookup code =
        some ⟨.nullSentinel, s.now + 300⟩) := by
  have hcr : cacheRead s noGetFail code = cacheLookup s code := rfl
  rcases hc : cacheLookup s code with _ | (_ | l | _)
  · -- cache miss
    have h1 := getByCode_miss s noGetFail code hb hr (Or.inr (hcr.trans hc))
    simp only [hdb] at h1
    have h2 := getByCode_null
      (advance (cacheSet s noGetFail.cacheSetFails code .nullSentinel 300) dt)
      noGetFail code hb hr (cacheRead_after_set_live s code .nullSentinel 300 dt hdt)
    simp only [h1, h2]
    exact ⟨trivial, trivial, by trivial,
      fun _ => cacheSet_lookup_self s code .nullSentinel 300⟩
  · -- live negative sentinel
    have h1 := getByCode_null s noGetFail code hb hr (hcr.trans hc)
    unfold cacheLookup at hc
    rcases hlk : s.cache.lookup code with _ | e
    · simp only [hlk] at hc
      exact absurd hc (by simp)
    · simp only [hlk] at hc
      by_cases hlive : s.now < e.deadline
      · rw [if_pos hlive] at hc
        injection hc with hval
        by_cases hlive2 : s.now + dt < e.deadline
        · have h2 := getByCode_null (advance s dt) noGetFail code hb hr (by
            have hred : cacheRead (advance s dt) noGetFail code =
                match s.cache.lookup code with
                | some e => if s.now + dt < e.deadline then some e.val else none
                | none => none := rfl
            rw [hred]
            simp only [hlk]
            rw [if_pos hlive2, hval])
          simp only [h1, h2]
          exact ⟨trivial, trivial, by trivial, fun hx => by simp at hx⟩
        · have hdb2 : dbFirst (advance s dt).db code = none := hdb
          have h2 := getByCode_miss (advance s dt) noGetFail code hb hr (Or.inr (by
            have hred : cacheRead (advance s dt) noGetFail code =
                match s.cache.lookup code with
                | some e => if s.now + dt < e.deadline then some e.val else none
                | none => none := rfl
            rw [hred]
            simp only [hlk]
            rw [if_neg hlive2]))
          simp only [hdb2] at h2
          simp only [h1, h2]
          exact ⟨trivial, trivial, by trivial, fun hx => by simp at hx⟩
      · rw [if_neg hlive] at hc
        exact absurd hc (by simp)
  · -- a live positive entry is excluded by hypothesis
    unfold noLivePositive at hser
    simp only [hc] at hser
    cases hser
  · -- undecodable entry: same fall-through as a miss
    have h1 := getByCode_miss s noGetFail code hb hr (Or.inl (hcr.trans hc))
    simp only [hdb] at h1
    have h2 := getByCode_null
      (advance (cacheSet s noGetFail.cacheSetFails code .nullSentinel 300) dt)
      noGetFail code hb hr (cacheRead_after_set_live s code .nullSentinel 300 dt hdt)
    simp only [h1, h2]
    exact ⟨trivial, trivial, by trivial,
      fun _ => cacheSet_lookup_self s code .nullSentinel 300⟩

/-- C8 witness: an empty cache and store, the code registered in the
filter; the two calls are 100 seconds apart. -/
theorem negative_caching_witness :
    (getByCode ⟨[], [], ["a"], true, true, 0⟩ noGetFail "a").result =
        .error .notFound ∧
    (getByCode (advance (getByCode ⟨[], [], ["a"], true, true, 0⟩
        noGetFail "a").state 100) noGetFail "a").result = .error .notFound ∧
    (getByCode ⟨[], [], ["a"], true, true, 0⟩ noGetFail "a").storeReads +
      (getByCode (advance (getByCode ⟨[], [], ["a"], true, true, 0⟩
        noGetFail "a").state 100) noGetFail "a").storeReads ≤ 1 ∧
    ((getByCode ⟨[], [], ["a"], true, true, 0⟩ noGetFail "a").storeReads = 1 →
      (getByCode ⟨[], [], ["a"], true, true, 0⟩ noGetFail "a").state.cache.lookup
        "a" = some ⟨.nullSentinel, 0 + 300⟩) :=
  negative_caching ⟨[], [], ["a"], true, true, 0⟩ "a" 100
    (by decide) (by decide) (by decide) (by decide) (by decide)

/-- A code-preserving row transformation commutes with `First`. -/
theorem dbFirst_map (db : List Link) (c : String) (g : Link → Link)
    (hg : ∀ l, (g l).code = l.code) :
    dbFirst (db.map g) c = (dbFirst db c).map g := by
  induction db with
  | nil => rfl
  | cons l rest ih =>
      unfold dbFirst at ih ⊢
      simp only [List.map_cons]
      rcases hl : l.code == c with _ | _
      · rw [List.find?_cons_of_neg _ (by simp [hg l, hl]),
          List.find?_cons_of_neg _ (by simp [hl])]
        exact ih
      · rw [List.find?_cons_of_pos _ (by simp [hg l, hl]),
          List.find?_cons_of_pos _ (by simp [hl])]
        rfl

/-- C9.  Update invalidation: with Redis up and the filter passing, a
successful `Update` for an existing code deletes the cache entry for it
(no repopulation: the lookup on the new state's cache finds nothing), and
the next `GetByCode` reloads from the store a record whose `url` is the
updated one. -/
theorem update_invalidation (s : RepoState) (link : Link)
    (hr : s.hasRedis = true)
    (hex : s.db.any (fun l => l.code == link.code) = true)
    (hb : bloomExistsM s false link.code = true) :
    ∃ lr s2, updateOp s false link = .ok (lr, s2) ∧
      cacheLookup s2 link.code = none ∧
      (getByCode s2 noGetFail link.code).result = .ok lr ∧
      lr.url = link.url := by
  have hsome : (dbFirst s.db link.code).isSome := by
    unfold dbFirst
    rw [List.find?_isSome]
    rcases List.any_eq_true.mp hex with ⟨l, hl, hpl⟩
    exact ⟨l, hl, hpl⟩
  obtain ⟨lf, hlf⟩ := Option.isSome_iff_exists.mp hsome
  have hg : ∀ l : Link,
      ((fun l => if l.code == link.code then updateFields l link s.now else l) l).code
        = l.code := by
    intro l
    dsimp only
    split <;> rfl
  have hmap := dbFirst_map s.db link.code
    (fun l => if l.code == link.code then updateFields l link s.now else l) hg
  rw [hlf] at hmap
  have hlf2 : List.find? (fun l => l.code == link.code) s.db = some lf := hlf
  have hpf : (lf.code == link.code) = true := by
    simpa using List.find?_some hlf2
  simp only [Option.map_some'] at hmap
  rw [if_pos hpf] at hmap
  have hup : updateOp s false link =
      .ok (updateFields lf link s.now,
        cacheErase { s with db := s.db.map (fun l =>
          if l.code == link.code then updateFields l link s.now else l) } link.code) := by
    unfold updateOp
    rw [if_neg (by simp [hex])]
    simp only [hmap]
    rw [if_pos (by simp [hr])]
  refine ⟨updateFields lf link s.now,
    cacheErase { s with db := s.db.map (fun l =>
      if l.code == link.code then updateFields l link s.now else l) } link.code,
    hup, ?_, ?_, rfl⟩
  · show (match (List.filter (fun kv => !(kv.1 == link.code)) s.cache).lookup link.code
        with
      | some e => if s.now < e.deadline then some e.val else none
      | none => none) = none
    rw [lookup_filter_self]
  · have hb2 : bloomExistsM (cacheErase { s with db := s.db.map (fun l =>
        if l.code == link.code then updateFields l link s.now else l) } link.code)
        noGetFail.bloomFails link.code = true := hb
    have hmiss := getByCode_miss (cacheErase { s with db := s.db.map (fun l =>
        if l.code == link.code then updateFields l link s.now else l) } link.code)
      noGetFail link.code hb2 hr (Or.inr (by
        show (match (List.filter (fun kv => !(kv.1 == link.code)) s.cache).lookup
            link.code with
          | some e => if s.now < e.deadline then some e.val else none
          | none => none) = none
        rw [lookup_filter_self]))
    have hdb2 : dbFirst (cacheErase { s with db := s.db.map (fun l =>
        if l.code == link.code then updateFields l link s.now else l) } link.code).db
        link.code = some (updateFields lf link s.now) := hmap
    simp only [hdb2] at hmiss
    simp only [hmiss]

/-- C9 witness: one stored link, an update changing its url; the cache no
longer holds the code and the re-read record carries the new url. -/
theorem update_invalidation_witness :
    ∃ lr s2, updateOp
        ⟨[⟨"a", "old", "direct", 0, false, none, 0, 0⟩],
         [("a", ⟨.ser ⟨"a", "old", "direct", 0, false, none, 0, 0⟩, 900⟩)],
         ["a"], true, true, 5⟩ false
        ⟨"a", "new", "direct", 0, false, none, 0, 0⟩ = .ok (lr, s2) ∧
      cacheLookup s2 "a" = none ∧
      (getByCode s2 noGetFail "a").result = .ok lr ∧
      lr.url = "new" :=
  update_invalidation
    ⟨[⟨"a", "old", "direct", 0, false, none, 0, 0⟩],
     [("a", ⟨.ser ⟨"a", "old", "direct", 0, false, none, 0, 0⟩, 900⟩)],
     ["a"], true, true, 5⟩
    ⟨"a", "new", "direct", 0, false, none, 0, 0⟩
    (by decide) (by decide) (by decide)

/-- C10.  A positive cache entry that fails to deserialize is neither an
error nor returned: `GetByCode` behaves exactly as on a cache miss — same
result as with the entry absent, one store read, one cache read — and
repopulates the cache from the store's answer (the found record with the
1-hour TTL, or the negative sentinel with the 5-minute TTL). -/
theorem corrupt_cache_recovers (s : RepoState) (code : String)
    (hr : s.hasRedis = true)
    (hb : bloomExistsM s false code = true)
    (hcor : cacheLookup s code = some .corrupt) :
    (getByCode s noGetFail code).result =
      (getByCode (cacheErase s code) noGetFail code).result ∧
    (getByCode s noGetFail code).storeReads = 1 ∧
    (getByCode s noGetFail code).cacheReads = 1 ∧
    (match dbFirst s.db code with
     | some l => (getByCode s noGetFail code).result = .ok l ∧
         (getByCode s noGetFail code).state.cache.lookup code =
           some ⟨.ser l, s.now + 3600⟩
     | none => (getByCode s noGetFail code).result = .error .notFound ∧
         (getByCode s noGetFail code).state.cache.lookup code =
           some ⟨.nullSentinel, s.now + 300⟩) := by
  have h1 := getByCode_miss s noGetFail code hb hr (Or.inl hcor)
  have hb2 : bloomExistsM (cacheErase s code) noGetFail.bloomFails code = true := hb
  have h2 := getByCode_miss (cacheErase s code) noGetFail code hb2 hr (Or.inr (by
    show (match (List.filter (fun kv => !(kv.1 == code)) s.cache).lookup code with
      | some e => if s.now < e.deadline then some e.val else none
      | none => none) = none
    rw [lookup_filter_self]))
  have hdbe : dbFirst (cacheErase s code).db code = dbFirst s.db code := rfl
  rw [hdbe] at h2
  rcases hd : dbFirst s.db code with _ | l
  · simp only [hd] at h1 h2
    simp only [h1, h2]
    exact ⟨trivial, trivial, trivial, trivial,
      cacheSet_lookup_self s code .nullSentinel 300⟩
  · simp only [hd] at h1 h2
    simp only [h1, h2]
    exact ⟨trivial, trivial, trivial, trivial,
      cacheSet_lookup_self s code (.ser l) 3600⟩

/-- C10 witness: a corrupt cache entry in front of a stored row; the call
reads the store once and repopulates the entry. -/
theorem corrupt_cache_recovers_witness :
    (getByCode ⟨[⟨"a", "u", "direct", 0, false, none, 0, 0⟩],
        [("a", ⟨.corrupt, 900⟩)], ["a"], true, true, 5⟩ noGetFail "a").storeReads
      = 1 :=
  (corrupt_cache_recovers
    ⟨[⟨"a", "u", "direct", 0, false, none, 0, 0⟩],
     [("a", ⟨.corrupt, 900⟩)], ["a"], true, true, 5⟩ "a"
    (by decide) (by decide) (by decide)).2.1

/-! ### Click-pipeline theorems -/

/-- C1 (amended).  Status transitions actually performed by the pipeline:
the sweeper's bulk update only turns stale PENDING rows into FAILED and
leaves every other row — in particular the terminal SUCCESS and FAILED
rows — exactly as it found them, so no event is swept twice; the
confirmation path's `UpdateStatus` writes SUCCESS into the matching row
regardless of its current status, so it performs PENDING → SUCCESS but
will equally overwrite a terminal FAILED row (see the counterexample). -/
theorem click_status_transitions (db : List ClickEventRow) (cutoff : Nat)
    (id : String) :
    List.Forall₂ (fun r r2 => r2 = r ∨
        (r.status = .pending ∧ r.timestamp < cutoff ∧
          r2 = { r with status := .failed }))
      db (updateExpiredPendingStatus db cutoff).1
    ∧ List.Forall₂ (fun r r2 => r2 = r ∨
        (r.id = id ∧ r2 = { r with status := .success }))
      db (updateStatus db id .success) := by
  constructor
  · unfold updateExpiredPendingStatus
    rw [List.forall₂_map_right_iff]
    rw [List.forall₂_same]
    intro r _
    by_cases h : (r.status == ClickStatus.pending
        && decide (r.timestamp < cutoff)) = true
    · rw [if_pos h]
      simp only [Bool.and_eq_true, beq_iff_eq, decide_eq_true_eq] at h
      exact Or.inr ⟨h.1, h.2, rfl⟩
    · rw [if_neg h]
      exact Or.inl rfl
  · unfold updateStatus
    rw [List.forall₂_map_right_iff]
    rw [List.forall₂_same]
    intro r _
    by_cases h : (r.id == id) = true
    · rw [if_pos h]
      exact Or.inr ⟨beq_iff_eq.mp h, rfl⟩
    · rw [if_neg h]
      exact Or.inl rfl

/-- C1 counterexample: the confirmation-path `UpdateStatus` call
(`UpdateStatus(clickID, SUCCESS)`, as the handler issues after a late but
still-valid token confirmation) has no status predicate in its WHERE
clause, so applied to an event already in the terminal FAILED state it
rewrites it to SUCCESS — a terminal state is mutated, refuting the claim
that no operation changes an event once terminal. -/
theorem click_terminal_overwritten :
    ClickStatus.failed ≠ ClickStatus.pending
    ∧ updateStatus [⟨"e1", "c", "ip", "ua", .failed, 0⟩] "e1" .success =
        [⟨"e1", "c", "ip", "ua", .success, 0⟩] := by
  decide

/-- C2: the consumer's persist step is *not* duplicate-tolerant.  With the
event id `"e1"` already persisted, redelivering the very same message makes
the plain `INSERT` hit the primary-key constraint, `Create` returns an
error, and the consumer negatively-acknowledges the redelivered message
instead of acknowledging it (and leaves the store unchanged). -/
theorem duplicate_redelivery_naks :
    processMsg [⟨"e1", "c", "ip", "ua", .pending, 0⟩]
        (.wellFormed ⟨"e1", "c", "ip", "ua", .pending, 0⟩) =
      ([⟨"e1", "c", "ip", "ua", .pending, 0⟩], .nak) := by
  decide

/-- Every branch of the consumer's loop body decides to continue. -/
theorem consumeIter_decision (db : List ClickEventRow) (f : FetchOutcome) :
    (consumeIter db f).decision = .continueLoop := by
  cases f <;> rfl

/-- C6 counterexample: the consumer's `consume` loop exposes no stop
mechanism.  As a function of its per-iteration inputs the loop's decision
is *constantly* "continue" — no input whatsoever makes an iteration stop —
and a concrete three-outcome run executes all three fetch cycles. -/
theorem consume_loop_never_stops :
    (fun p : List ClickEventRow × FetchOutcome =>
        (consumeIter p.1 p.2).decision) =
      (fun _ => LoopDecision.continueLoop)
    ∧ (consumeRun [] [.batch [], .fetchError false, .fetchError true]).2 = 3 := by
  constructor
  · funext p
    exact consumeIter_decision p.1 p.2
  · rfl

/-- C6 (amended).  The Sweeper's loop honors its stop signal between
ticks: once the stop channel fires, it terminates at once, performing no
further sweeps and leaving the store untouched.  The Consumer's loop has
no such mechanism: a run over any sequence of fetch outcomes executes
every one of them — the loop never exits early. -/
theorem stop_mechanisms (ttl : Nat) (db : List ClickEventRow)
    (fs : List FetchOutcome) (rest : List SweepInput) :
    (consumeRun db fs).2 = fs.length
    ∧ sweeperRun ttl db (SweepInput.stop :: rest) = (db, true) := by
  constructor
  · induction fs generalizing db with
    | nil => rfl
    | cons f r ih =>
        unfold consumeRun
        rw [consumeIter_decision]
        simp [ih]
  · rfl

end PowerURL
